import Mathlib

/-!
Verification of the dust-data-sync repository (four near-duplicate
ClickUp-docs-to-Dust sync pipelines) against its natural-language
specification.

The four source variants are embedded separately where they differ:
* `ClickupDocs` — `src/clickup/clickup-docs-to-dust.ts` (all docs, depth-1
  fetch with `validateStatus < 500`, exponential backoff, inline recursive
  `processPages`);
* `Part000` — `src/unnamed/part_000` (single doc, recursive subpage fetch,
  flatten-then-batch delivery with batches of 5);
* `Part001` — `src/unnamed/part_001` (single doc, depth-1 fetch, linear
  backoff, inline recursive `processPages`);
* `Part002` — `src/unnamed/part_002` (all docs, one-shot fetch with
  `max_page_depth: -1`, counting `processPages`, per-root error recovery).

Network effects are modelled by explicit outcome oracles (one outcome per
attempt), and the rate limiters / the slugify library — both external npm
dependencies whose code is not part of the repository — are modelled from
the specification where a claim needs them.
-/

namespace DustDataSync

/-- The `ClickUpPage` record shared verbatim by all four source variants:
a node of the fetched document tree. -/
inductive ClickUpPage : Type where
  | mk (workspace_id : String) (doc_id : String) (id : String) (archived : Bool)
      (name : String) (content : String) (parent_id : Option String)
      (pages : List ClickUpPage) (date_created : Nat) (date_updated : Nat)

def ClickUpPage.workspace_id : ClickUpPage → String
  | .mk w _ _ _ _ _ _ _ _ _ => w

def ClickUpPage.doc_id : ClickUpPage → String
  | .mk _ d _ _ _ _ _ _ _ _ => d

def ClickUpPage.id : ClickUpPage → String
  | .mk _ _ i _ _ _ _ _ _ _ => i

def ClickUpPage.archived : ClickUpPage → Bool
  | .mk _ _ _ a _ _ _ _ _ _ => a

def ClickUpPage.name : ClickUpPage → String
  | .mk _ _ _ _ n _ _ _ _ _ => n

def ClickUpPage.content : ClickUpPage → String
  | .mk _ _ _ _ _ c _ _ _ _ => c

def ClickUpPage.parent_id : ClickUpPage → Option String
  | .mk _ _ _ _ _ _ p _ _ _ => p

def ClickUpPage.pages : ClickUpPage → List ClickUpPage
  | .mk _ _ _ _ _ _ _ pgs _ _ => pgs

def ClickUpPage.date_created : ClickUpPage → Nat
  | .mk _ _ _ _ _ _ _ _ dc _ => dc

def ClickUpPage.date_updated : ClickUpPage → Nat
  | .mk _ _ _ _ _ _ _ _ _ du => du

theorem ClickUpPage.sizeOf_pages_lt (p : ClickUpPage) : sizeOf p.pages < sizeOf p := by
  cases p with
  | mk w d i a n c par pgs dc du =>
    simp [ClickUpPage.pages]
    omega

/-- JavaScript `String.prototype.trim()`: strip whitespace from both ends.
(Defined structurally over the character list so that it evaluates inside
the kernel; the standard `String.trim` is extensionally the same but does
not reduce.) -/
def jsTrim (s : String) : String :=
  ((s.data.dropWhile Char.isWhitespace).reverse.dropWhile Char.isWhitespace).reverse.asString

/-- The sync filter applied by every variant:
`page.content && page.content.trim() !== '' && !page.archived`
(a falsy `content` is the empty string, whose trim is again empty, so the
truthiness test is subsumed by the trim test). -/
def ClickUpPage.syncable (p : ClickUpPage) : Prop :=
  jsTrim p.content ≠ "" ∧ p.archived = false

instance (p : ClickUpPage) : Decidable p.syncable := by
  unfold ClickUpPage.syncable
  infer_instance

/-- Function `flattenPages` from `src/unnamed/part_000` (`processPages`, lines
189-200): pushes a page iff it passes the sync filter, then always walks the
children (the `page.pages && page.pages.length > 0` guard only skips a
recursion that would return `[]`). -/
def flattenPages : List ClickUpPage → List ClickUpPage
  | [] => []
  | p :: ps =>
    (if jsTrim p.content ≠ "" ∧ p.archived = false then [p] else []) ++
    ((if p.pages.isEmpty then [] else flattenPages p.pages) ++ flattenPages ps)
termination_by l => sizeOf l
decreasing_by
  all_goals simp only [List.cons.sizeOf_spec]
  · have h := ClickUpPage.sizeOf_pages_lt p
    omega
  · omega

/-- Every node reachable from the given roots via `pages`, in
parent-before-children depth-first order: the set of nodes the walk visits
and tests. -/
def allNodes : List ClickUpPage → List ClickUpPage
  | [] => []
  | p :: ps => p :: (allNodes p.pages ++ allNodes ps)
termination_by l => sizeOf l
decreasing_by
  all_goals simp only [List.cons.sizeOf_spec]
  · have h := ClickUpPage.sizeOf_pages_lt p
    omega
  · omega

theorem flattenPages_nil : flattenPages [] = [] := by
  simp [flattenPages]

/-- The child-recursion guard in the source is a no-op: recursing into an
empty child list returns `[]` anyway. -/
theorem flattenPages_guard (l : List ClickUpPage) :
    (if l.isEmpty then [] else flattenPages l) = flattenPages l := by
  cases l with
  | nil => simp [flattenPages]
  | cons p ps => simp [List.isEmpty]

theorem flattenPages_cons (p : ClickUpPage) (ps : List ClickUpPage) :
    flattenPages (p :: ps) =
      (if p.syncable then [p] else []) ++ flattenPages p.pages ++ flattenPages ps := by
  rw [flattenPages]
  rw [flattenPages_guard]
  simp [ClickUpPage.syncable, List.append_assoc]

/-- Induction over the page forest, descending both into children and into
siblings — the recursion scheme of every walk in the source. -/
theorem pageForest_ind {motive : List ClickUpPage → Prop} (h0 : motive [])
    (h1 : ∀ p ps, motive p.pages → motive ps → motive (p :: ps)) :
    ∀ l, motive l
  | [] => h0
  | p :: ps =>
    h1 p ps (pageForest_ind h0 h1 p.pages) (pageForest_ind h0 h1 ps)
termination_by l => sizeOf l
decreasing_by
  all_goals simp only [List.cons.sizeOf_spec]
  · have h := ClickUpPage.sizeOf_pages_lt p
    omega
  · omega

theorem allNodes_nil : allNodes [] = [] := by
  simp [allNodes]

theorem allNodes_cons (p : ClickUpPage) (ps : List ClickUpPage) :
    allNodes (p :: ps) = p :: (allNodes p.pages ++ allNodes ps) := by
  rw [allNodes]

/-- Filter correctness for the flattener: a node is in the flattened output
iff it is reachable from the roots and passes the sync filter. -/
theorem mem_flattenPages (q : ClickUpPage) (ts : List ClickUpPage) :
    q ∈ flattenPages ts ↔ q ∈ allNodes ts ∧ q.syncable := by
  induction ts using pageForest_ind with
  | h0 =>
    simp [flattenPages_nil, allNodes_nil]
  | h1 p ps ih1 ih2 =>
    rw [flattenPages_cons, allNodes_cons]
    by_cases hp : p.syncable
    · rw [if_pos hp]
      simp only [List.mem_append, List.mem_cons, List.not_mem_nil, or_false, ih1, ih2]
      constructor
      · rintro ((rfl | ⟨hm, hs⟩) | ⟨hm, hs⟩)
        · exact ⟨Or.inl rfl, hp⟩
        · exact ⟨Or.inr (Or.inl hm), hs⟩
        · exact ⟨Or.inr (Or.inr hm), hs⟩
      · rintro ⟨rfl | hm | hm, hs⟩
        · exact Or.inl (Or.inl rfl)
        · exact Or.inl (Or.inr ⟨hm, hs⟩)
        · exact Or.inr ⟨hm, hs⟩
    · rw [if_neg hp]
      simp only [List.nil_append, List.mem_append, List.mem_cons, ih1, ih2]
      constructor
      · rintro (⟨hm, hs⟩ | ⟨hm, hs⟩)
        · exact ⟨Or.inr (Or.inl hm), hs⟩
        · exact ⟨Or.inr (Or.inr hm), hs⟩
      · rintro ⟨rfl | hm | hm, hs⟩
        · exact absurd hs hp
        · exact Or.inl ⟨hm, hs⟩
        · exact Or.inr ⟨hm, hs⟩

/-- The sequence of pages upserted by `processPages` from
`src/clickup/clickup-docs-to-dust.ts` (lines 208-226): upsert when
`page.content && page.content.trim() !== ''` and then `!page.archived`
(an archived or empty page is only logged/skipped), and always recurse into
`page.pages` afterwards. `src/unnamed/part_001` has the identical
`processPages`. -/
def ClickupDocs.processPagesUpserts : List ClickUpPage → List ClickUpPage
  | [] => []
  | p :: ps =>
    (if jsTrim p.content ≠ "" then (if p.archived = false then [p] else []) else []) ++
    ((if p.pages.isEmpty then [] else ClickupDocs.processPagesUpserts p.pages) ++
      ClickupDocs.processPagesUpserts ps)
termination_by l => sizeOf l
decreasing_by
  all_goals simp only [List.cons.sizeOf_spec]
  · have h := ClickUpPage.sizeOf_pages_lt p
    omega
  · omega

/-- The inline recurse-and-upsert walk of the clickup variant visits and
upserts exactly the pages the flatten-then-batch variant collects, in the
same depth-first order. -/
theorem processPagesUpserts_eq_flattenPages (ts : List ClickUpPage) :
    ClickupDocs.processPagesUpserts ts = flattenPages ts := by
  induction ts using pageForest_ind with
  | h0 =>
    simp [ClickupDocs.processPagesUpserts, flattenPages_nil]
  | h1 p ps ih1 ih2 =>
    rw [ClickupDocs.processPagesUpserts, flattenPages_cons]
    have hguard : (if p.pages.isEmpty then [] else ClickupDocs.processPagesUpserts p.pages)
        = ClickupDocs.processPagesUpserts p.pages := by
      cases hpp : p.pages with
      | nil => simp [hpp, ClickupDocs.processPagesUpserts]
      | cons a as => simp [List.isEmpty]
    rw [hguard, ih1, ih2]
    have hif : (if jsTrim p.content ≠ "" then (if p.archived = false then [p] else []) else [])
        = (if p.syncable then [p] else []) := by
      by_cases h1 : jsTrim p.content ≠ ""
      · by_cases h2 : p.archived = false
        · rw [if_pos h1, if_pos h2, if_pos ⟨h1, h2⟩]
        · rw [if_pos h1, if_neg h2, if_neg (fun hc => h2 hc.2)]
      · rw [if_neg h1, if_neg (fun hc => h1 hc.1)]
    rw [hif, List.append_assoc]

/-- C1: a page is in the syncable/upserted set iff its trimmed content is
non-empty and it is not archived; exclusion never prunes the subtree — every
reachable node is walked and tested independently (membership is relative to
`allNodes`, the full walk). This holds of `flattenPages` in
`src/unnamed/part_000` and of the upsert sequence of `processPages` in
`src/clickup/clickup-docs-to-dust.ts`, which coincide. -/
theorem C1_filter_correctness (q : ClickUpPage) (ts : List ClickUpPage) :
    (q ∈ flattenPages ts ↔ q ∈ allNodes ts ∧ jsTrim q.content ≠ "" ∧ q.archived = false)
    ∧ (q ∈ ClickupDocs.processPagesUpserts ts ↔
        q ∈ allNodes ts ∧ jsTrim q.content ≠ "" ∧ q.archived = false) := by
  constructor
  · exact mem_flattenPages q ts
  · rw [processPagesUpserts_eq_flattenPages]
    exact mem_flattenPages q ts

/-- Convenience constructor for concrete test pages (fields irrelevant to a
claim get fixed fillers). -/
def mkPage (i nm ct : String) (a : Bool) (sub : List ClickUpPage) : ClickUpPage :=
  ClickUpPage.mk "ws1" "doc1" i a nm ct none sub 1700000000000 1700000000001

/-- Modelled from the spec: the `slugify` npm package (an external
dependency, its code is not in this repository), called as
`slugify(name, {lower: true, strict: true, trim: true})`. Per §4.2 of the
spec it lowercases, strips to a constrained character set (letters, digits,
hyphens, with spaces becoming hyphens), and trims leading/trailing
separators; it is pure and total — unsupported characters are dropped,
never an error. -/
def slugChar (c : Char) : Option Char :=
  let l := c.toLower
  if l.isAlpha ∨ l.isDigit then some l
  else if c = ' ' ∨ c = '-' then some '-'
  else none

def trimSeparators (l : List Char) : List Char :=
  ((l.dropWhile (fun c => c = '-')).reverse.dropWhile (fun c => c = '-')).reverse

/-- Function `generateSlug` (identical in all four variants). -/
def generateSlug (nm : String) : String :=
  (trimSeparators (nm.data.filterMap slugChar)).asString

/-- The identifier `const documentId = page.id + "-" + slug` computed inside
`upsertToDustDatasource` (identical in all four variants). -/
def documentId (p : ClickUpPage) : String :=
  p.id ++ "-" ++ generateSlug p.name

/-- C6: the destination document identifier is `id + "-" + normalize(title)`
with `normalize` a pure, total function, so the identifier is a
deterministic function of the pair `(id, title)` alone. -/
theorem C6_documentId_deterministic :
    (∀ p : ClickUpPage, documentId p = p.id ++ "-" ++ generateSlug p.name)
    ∧ (∀ p q : ClickUpPage, p.id = q.id → p.name = q.name →
        documentId p = documentId q) := by
  constructor
  · intro p
    rfl
  · intro p q hid hname
    unfold documentId
    rw [hid, hname]

theorem C6_documentId_deterministic_witness :
    (mkPage "42" "My Page!" "a" false []).id = (mkPage "42" "My Page!" "zzz" true []).id
    ∧ (mkPage "42" "My Page!" "a" false []).name = (mkPage "42" "My Page!" "zzz" true []).name
    ∧ documentId (mkPage "42" "My Page!" "a" false [])
        = documentId (mkPage "42" "My Page!" "zzz" true [])
    ∧ documentId (mkPage "42" "My Page!" "a" false []) = "42-my-page" :=
  ⟨rfl, rfl,
    C6_documentId_deterministic.2 (mkPage "42" "My Page!" "a" false [])
      (mkPage "42" "My Page!" "zzz" true []) rfl rfl,
    by decide⟩

/-- Outcome of one `upsertToDustDatasource` invocation as observed by its
caller and its log: the `try catch` around the single POST swallows any
error, so the function always returns, either after a successful write or
after logging the pair (documentId, error). -/
inductive UpsertOutcome : Type where
  | success (documentId : String)
  | loggedFailure (documentId : String) (errMsg : String)
  deriving DecidableEq

/-- Function `upsertToDustDatasource` from `src/unnamed/part_002` (lines 132-163):
one `limitedDustApiPost`; the catch block only logs. `failMsg p` is the
oracle saying whether (and with which error) the destination write for `p`
fails. -/
def Part002.upsertToDustDatasource (failMsg : ClickUpPage → Option String)
    (p : ClickUpPage) : UpsertOutcome :=
  match failMsg p with
  | none => .success (documentId p)
  | some e => .loggedFailure (documentId p) e

/-- Function `processPages` from `src/unnamed/part_002` (lines 165-185): walks the
tree, awaits `upsertToDustDatasource` for each page passing the sync filter
and increments `upsertedCount` after the await returns — the increment does
not depend on whether the write inside succeeded, because the upsert
swallows its error. Returns the pair (upsertedCount, upsert log). -/
def Part002.processPages (failMsg : ClickUpPage → Option String) :
    List ClickUpPage → Nat × List UpsertOutcome
  | [] => (0, [])
  | p :: ps =>
    let head : Nat × List UpsertOutcome :=
      if jsTrim p.content ≠ "" then
        if p.archived = false then (1, [Part002.upsertToDustDatasource failMsg p])
        else (0, [])
      else (0, [])
    let sub : Nat × List UpsertOutcome :=
      if p.pages.isEmpty then (0, []) else Part002.processPages failMsg p.pages
    let rest := Part002.processPages failMsg ps
    (head.1 + (sub.1 + rest.1), head.2 ++ (sub.2 ++ rest.2))
termination_by l => sizeOf l
decreasing_by
  all_goals simp only [List.cons.sizeOf_spec]
  · have h := ClickUpPage.sizeOf_pages_lt p
    omega
  · omega

/-- What part_002's walk actually reports: the count equals the number of
sync candidates (successful or not), and the log carries one outcome per
candidate in traversal order. -/
theorem part002_processPages_spec (failMsg : ClickUpPage → Option String)
    (ts : List ClickUpPage) :
    (Part002.processPages failMsg ts).1 = (flattenPages ts).length
    ∧ (Part002.processPages failMsg ts).2
        = (flattenPages ts).map (Part002.upsertToDustDatasource failMsg) := by
  induction ts using pageForest_ind with
  | h0 =>
    rw [Part002.processPages, flattenPages_nil]
    constructor <;> rfl
  | h1 p ps ih1 ih2 =>
    rw [Part002.processPages, flattenPages_cons]
    have hguard : (if p.pages.isEmpty then ((0 : Nat), ([] : List UpsertOutcome))
        else Part002.processPages failMsg p.pages) = Part002.processPages failMsg p.pages := by
      cases hpp : p.pages with
      | nil => simp [Part002.processPages]
      | cons a as => simp [List.isEmpty]
    rw [hguard]
    by_cases hc : jsTrim p.content ≠ ""
    · by_cases ha : p.archived = false
      · rw [if_pos hc, if_pos ha, if_pos ⟨hc, ha⟩]
        simp only [List.length_append, List.map_append, List.length_cons, List.length_nil,
          List.map_cons, List.map_nil, List.singleton_append, List.cons_append, ih1.1, ih1.2,
          ih2.1, ih2.2]
        constructor
        · omega
        · trivial
      · rw [if_pos hc, if_neg ha, if_neg (fun hs => ha hs.2)]
        simp only [List.nil_append, List.length_append, List.map_append, ih1.1, ih1.2,
          ih2.1, ih2.2]
        constructor
        · omega
        · trivial
    · rw [if_neg hc, if_neg (fun hs => hc hs.1)]
      simp only [List.nil_append, List.length_append, List.map_append, ih1.1, ih1.2,
        ih2.1, ih2.2]
      constructor
      · omega
      · trivial

def pageA : ClickUpPage := mkPage "a" "Alpha" "body a" false []

def pageB : ClickUpPage := mkPage "b" "Beta" "body b" false []

/-- A two-candidate tree. -/
def exTree : List ClickUpPage := [pageA, pageB]

/-- A destination oracle that fails exactly the write of `pageA`. -/
def exFail : ClickUpPage → Option String :=
  fun p => if p.id = "a" then some "HTTP 500" else none

theorem exTree_flatten : flattenPages exTree = [pageA, pageB] := by
  show flattenPages [pageA, pageB] = [pageA, pageB]
  rw [flattenPages_cons, flattenPages_cons, flattenPages_nil]
  rw [if_pos (show pageA.syncable by decide), if_pos (show pageB.syncable by decide)]
  rw [show pageA.pages = [] from rfl, show pageB.pages = [] from rfl, flattenPages_nil]
  simp

/-- C2 fails on the code: with `N = 2` candidates of which exactly one write
fails, part_002's reported success count is `2`, not `N - 1 = 1` —
`upsertedCount` is incremented after `await upsertToDustDatasource(page)`
regardless of the write outcome, because that function catches and only
logs its error; no failure list exists in the run result. -/
theorem C2_counterexample :
    (flattenPages exTree).length = 2
    ∧ ((flattenPages exTree).filter (fun p => (exFail p).isSome)).length = 1
    ∧ (Part002.processPages exFail exTree).1 = 2
    ∧ ¬ (Part002.processPages exFail exTree).1 = (flattenPages exTree).length - 1 := by
  have hc := (part002_processPages_spec exFail exTree).1
  rw [exTree_flatten] at hc ⊢
  refine ⟨by simp, by decide, ?_, ?_⟩
  · rw [hc]
    simp
  · rw [hc]
    decide

/-- C2 (amended): for every run over a tree with N sync candidates, the
reported success count is N — a failing destination write is still counted,
since `upsertToDustDatasource` swallows its error; the failure is recorded
only in the log (as a documentId/error pair), not in any returned failure
list; the run does not abort and no exception escapes (`processPages` is
total and the log carries exactly one outcome per candidate). -/
theorem C2_failure_isolation (failMsg : ClickUpPage → Option String)
    (ts : List ClickUpPage) :
    (Part002.processPages failMsg ts).1 = (flattenPages ts).length
    ∧ (Part002.processPages failMsg ts).2
        = (flattenPages ts).map (Part002.upsertToDustDatasource failMsg)
    ∧ (∀ p, ∀ e, p ∈ flattenPages ts → failMsg p = some e →
        UpsertOutcome.loggedFailure (documentId p) e ∈ (Part002.processPages failMsg ts).2) := by
  refine ⟨(part002_processPages_spec failMsg ts).1, (part002_processPages_spec failMsg ts).2, ?_⟩
  intro p e hp he
  rw [(part002_processPages_spec failMsg ts).2]
  refine List.mem_map.mpr ⟨p, hp, ?_⟩
  unfold Part002.upsertToDustDatasource
  rw [he]

theorem C2_failure_isolation_witness :
    pageA ∈ flattenPages exTree ∧ exFail pageA = some "HTTP 500"
    ∧ UpsertOutcome.loggedFailure (documentId pageA) "HTTP 500"
        ∈ (Part002.processPages exFail exTree).2 := by
  have h1 : pageA ∈ flattenPages exTree := by
    rw [exTree_flatten]
    exact List.mem_cons_self _ _
  have h2 : exFail pageA = some "HTTP 500" := by decide
  exact ⟨h1, h2, (C2_failure_isolation exFail exTree).2.2 pageA "HTTP 500" h1 h2⟩

/-- An error thrown by one fetch attempt: `error.response.status` when the
error carries an HTTP response (`none` for transport errors and timeouts),
plus the message. -/
structure FetchErr : Type where
  status : Option Nat
  msg : String
  deriving DecidableEq

/-- What the network does on one GET: either the server answers with a
status code and a (possibly falsy) body — the body being whatever payload
axios parsed, which the source casts to `ClickUpPage[]` — or the request
fails at transport level (connection error / timeout). -/
inductive HttpAttempt : Type where
  | response (status : Nat) (body : Option (List ClickUpPage))
  | network (msg : String)

/-- How an axios call settles: resolve with the response, or reject with an
error that may carry an HTTP status. -/
inductive AxiosResult : Type where
  | resolved (status : Nat) (body : Option (List ClickUpPage))
  | rejected (status : Option Nat) (msg : String)

/-- The `clickupApi` instance of `src/clickup/clickup-docs-to-dust.ts`
(lines 36-50): `validateStatus: (status) => status < 500`, so a response
with any status below 500 — including 404 and 429 — resolves the promise;
only 5xx responses and transport failures reject. -/
def ClickupDocs.clickupApiGet (h : HttpAttempt) : AxiosResult :=
  match h with
  | .response s b =>
    if s < 500 then .resolved s b else .rejected (some s) "Request failed"
  | .network m => .rejected none m

/-- The ceiling `const maxRetries = 3` (identical in every retrying variant). -/
def maxRetries : Nat := 3

/-- The delay `Math.min(10000, 2000 * Math.pow(2, attempt - 1))`
(`src/clickup/clickup-docs-to-dust.ts` line 94). -/
def ClickupDocs.backoffDelay (attempt : Nat) : Nat :=
  min 10000 (2000 * 2 ^ (attempt - 1))

/-- The delay `2000 * attempt` (`src/unnamed/part_000` line 89, `part_001` line 80). -/
def linearDelay (attempt : Nat) : Nat := 2000 * attempt

/-- Observable outcome of one fetch: how many attempts were made, the sleeps
inserted between attempts (in order), and the returned value — `Except`
models the function either returning pages or throwing `lastError` (which is
`none` only in the unreachable case of a zero-attempt loop). -/
structure FetchTrace : Type where
  attempts : Nat
  delays : List Nat
  result : Except (Option FetchErr) (List ClickUpPage)

/-- The retry loop of `getClickUpPagesWithRetry` in
`src/clickup/clickup-docs-to-dust.ts` (lines 62-102), one equation per
loop iteration (`fuel` counts the iterations left, starting at
`maxRetries`): a resolved response returns its body — `[]` when the body is
falsy (`!response.data`); a rejected error returns `[]` when its status is
404, otherwise it is recorded as `lastError` and, if attempts remain, the
loop sleeps `backoffDelay attempt` and retries; after the last attempt
`lastError` is thrown. -/
def ClickupDocs.retryGo (o : Nat → HttpAttempt) :
    Nat → Nat → Option FetchErr → FetchTrace
  | 0, _, last => ⟨0, [], .error last⟩
  | fuel + 1, attempt, _ =>
    match ClickupDocs.clickupApiGet (o attempt) with
    | .resolved _ none => ⟨1, [], .ok []⟩
    | .resolved _ (some pages) => ⟨1, [], .ok pages⟩
    | .rejected st m =>
      if st = some 404 then ⟨1, [], .ok []⟩
      else if attempt < maxRetries then
        let t := ClickupDocs.retryGo o fuel (attempt + 1) (some ⟨st, m⟩)
        ⟨t.attempts + 1, ClickupDocs.backoffDelay attempt :: t.delays, t.result⟩
      else ⟨1, [], .error (some ⟨st, m⟩)⟩

def ClickupDocs.getClickUpPagesWithRetry (o : Nat → HttpAttempt) : FetchTrace :=
  ClickupDocs.retryGo o maxRetries 1 none

/-- The retry loop shared by `getClickUpPagesWithRetry` of
`src/unnamed/part_000` (lines 52-94) and `src/unnamed/part_001` (lines
55-86): the attempt oracle `o` says whether attempt `k` returns pages or
throws; on failure the loop sleeps `2000 * attempt` and retries while
attempts remain, then throws the last error. (part_000 additionally
re-fetches subpages after a successful attempt — see
`Part000.getClickUpPagesWithRetry` — which does not affect the loop since
that step never throws.) -/
def linearRetryGo (o : Nat → Except FetchErr (List ClickUpPage)) :
    Nat → Nat → Option FetchErr → FetchTrace
  | 0, _, last => ⟨0, [], .error last⟩
  | fuel + 1, attempt, _ =>
    match o attempt with
    | .ok pages => ⟨1, [], .ok pages⟩
    | .error e =>
      if attempt < maxRetries then
        let t := linearRetryGo o fuel (attempt + 1) (some e)
        ⟨t.attempts + 1, linearDelay attempt :: t.delays, t.result⟩
      else ⟨1, [], .error (some e)⟩

def Part001.getClickUpPagesWithRetry
    (o : Nat → Except FetchErr (List ClickUpPage)) : FetchTrace :=
  linearRetryGo o maxRetries 1 none

def ClickUpPage.setPages : ClickUpPage → List ClickUpPage → ClickUpPage
  | .mk w d i a n c par _ dc du, l => .mk w d i a n c par l dc du

/-- Function `getClickUpPagesWithRetry` of `src/unnamed/part_000` including its
recursive subpage step (lines 71-82): after a successful attempt, for every
returned page with a non-empty `pages` stub the function calls itself on
`page.id`, storing the result as the children — and storing `[]` when that
recursive fetch throws (the `catch` at lines 77-80). `o` gives the attempt
outcomes per document id; `depth` is recursion fuel (the source recurses
unboundedly, so any terminating model is depth-indexed). -/
def Part000.getClickUpPagesWithRetry
    (o : String → Nat → Except FetchErr (List ClickUpPage)) :
    Nat → String → Except (Option FetchErr) (List ClickUpPage)
  | 0, _ => .error none
  | depth + 1, docId =>
    match (linearRetryGo (o docId) maxRetries 1 none).result with
    | .error err => .error err
    | .ok pages =>
      .ok (pages.map (fun p =>
        if p.pages.isEmpty then p
        else
          match Part000.getClickUpPagesWithRetry o depth p.id with
          | .ok subs => p.setPages subs
          | .error _ => p.setPages []))

/-- If every attempt for a document throws, the linear-backoff loop makes
exactly `maxRetries = 3` attempts, sleeps 2000 ms then 4000 ms between them,
and rethrows the error of the last attempt. -/
theorem linearRetry_allFail (o : Nat → Except FetchErr (List ClickUpPage))
    (e : Nat → FetchErr)
    (ho : ∀ k, 1 ≤ k → k ≤ maxRetries → o k = .error (e k)) :
    linearRetryGo o maxRetries 1 none
      = ⟨maxRetries, [2000, 4000], .error (some (e maxRetries))⟩ := by
  have h1 := ho 1 (by omega) (by simp [maxRetries])
  have h2 := ho 2 (by omega) (by simp [maxRetries])
  have h3 := ho 3 (by omega) (by simp [maxRetries])
  show linearRetryGo o 3 1 none = _
  simp [linearRetryGo, h1, h2, h3, maxRetries, linearDelay]

/-- If every attempt rejects with a non-404 error, the clickup-variant loop
makes exactly `maxRetries = 3` attempts, sleeps 2000 ms then 4000 ms
(exponential backoff, capped at 10000 ms) between them, and rethrows the
error of the last attempt. -/
theorem clickupRetry_allFail (o : Nat → HttpAttempt)
    (st : Nat → Option Nat) (m : Nat → String)
    (ho : ∀ k, 1 ≤ k → k ≤ maxRetries →
      ClickupDocs.clickupApiGet (o k) = .rejected (st k) (m k) ∧ st k ≠ some 404) :
    ClickupDocs.getClickUpPagesWithRetry o
      = ⟨maxRetries, [2000, 4000], .error (some ⟨st maxRetries, m maxRetries⟩)⟩ := by
  have h1 := ho 1 (by omega) (by simp [maxRetries])
  have h2 := ho 2 (by omega) (by simp [maxRetries])
  have h3 := ho 3 (by omega) (by simp [maxRetries])
  show ClickupDocs.retryGo o 3 1 none = _
  simp [ClickupDocs.retryGo, h1.1, h2.1, h3.1, h1.2, h2.2, h3.2, maxRetries,
    ClickupDocs.backoffDelay]

/-- The error classes for which the `catch` block of the clickup variant is
reachable at all: transport failures (network error, timeout) and 5xx
responses — everything else resolves under `validateStatus: status < 500`. -/
def ClickupDocs.transient : HttpAttempt → Prop
  | .network _ => True
  | .response s _ => 500 ≤ s

/-- In the clickup variant every rejected error is transient and never
carries status 404; in particular the `error.response.status === 404` skip
branch inside the catch is unreachable. -/
theorem ClickupDocs.rejected_transient (h : HttpAttempt) (st : Option Nat) (m : String)
    (hr : ClickupDocs.clickupApiGet h = .rejected st m) :
    st ≠ some 404 ∧ ClickupDocs.transient h := by
  cases h with
  | network msg =>
    dsimp only [ClickupDocs.clickupApiGet] at hr
    cases hr
    exact ⟨by simp, trivial⟩
  | response s b =>
    dsimp only [ClickupDocs.clickupApiGet] at hr
    by_cases hs : s < 500
    · rw [if_pos hs] at hr
      exact absurd hr (by simp)
    · rw [if_neg hs] at hr
      cases hr
      refine ⟨?_, ?_⟩
      · intro hc
        injection hc with hc
        omega
      · show 500 ≤ s
        omega

/-- A first attempt that resolves (status below 500) ends the fetch at once
with the response body — `[]` when the body is falsy. -/
theorem ClickupDocs.attempt1_resolves (o : Nat → HttpAttempt) (s : Nat)
    (b : Option (List ClickUpPage)) (hs : s < 500) (h1 : o 1 = .response s b) :
    ClickupDocs.getClickUpPagesWithRetry o = ⟨1, [], .ok (b.getD [])⟩ := by
  have hA : ClickupDocs.clickupApiGet (o 1) = .resolved s b := by
    rw [h1]
    dsimp only [ClickupDocs.clickupApiGet]
    rw [if_pos hs]
  show ClickupDocs.retryGo o 3 1 none = _
  cases b with
  | none => simp [ClickupDocs.retryGo, hA]
  | some pages => simp [ClickupDocs.retryGo, hA]

/-- A fetch that ends in a thrown error made every one of its `maxRetries`
attempts against a transient error (transport failure or 5xx). -/
theorem ClickupDocs.error_all_transient (o : Nat → HttpAttempt) (err : Option FetchErr)
    (he : (ClickupDocs.getClickUpPagesWithRetry o).result = Except.error err) :
    ∀ k, 1 ≤ k → k ≤ maxRetries → ClickupDocs.transient (o k) := by
  have he' : (ClickupDocs.retryGo o 3 1 none).result = Except.error err := he
  cases ho1 : ClickupDocs.clickupApiGet (o 1) with
  | resolved s1 b1 =>
    cases b1 <;> simp [ClickupDocs.retryGo, ho1] at he'
  | rejected st1 m1 =>
    have t1 := ClickupDocs.rejected_transient (o 1) st1 m1 ho1
    simp only [ClickupDocs.retryGo, ho1, t1.1, if_false,
      if_pos (by decide : 1 < maxRetries)] at he'
    cases ho2 : ClickupDocs.clickupApiGet (o 2) with
    | resolved s2 b2 =>
      cases b2 <;> simp [ClickupDocs.retryGo, ho2] at he'
    | rejected st2 m2 =>
      have t2 := ClickupDocs.rejected_transient (o 2) st2 m2 ho2
      simp only [ClickupDocs.retryGo, ho2, t2.1, if_false,
        if_pos (by decide : 2 < maxRetries)] at he'
      cases ho3 : ClickupDocs.clickupApiGet (o 3) with
      | resolved s3 b3 =>
        cases b3 <;> simp [ClickupDocs.retryGo, ho3] at he'
      | rejected st3 m3 =>
        have t3 := ClickupDocs.rejected_transient (o 3) st3 m3 ho3
        intro k hk1 hk3
        have hk3' : k ≤ 3 := by simpa [maxRetries] using hk3
        interval_cases k
        · exact t1.2
        · exact t2.2
        · exact t3.2

/-- C3: a fetch whose attempts all fail transiently makes exactly
`maxRetries = 3` attempts (the loop `for attempt = 1..maxRetries` runs
`maxRetries` times), with inter-attempt delays that strictly increase with
the attempt number — `2000 * attempt` in the linear variants and
`min(10000, 2000 * 2^(attempt-1))` (capped at 10000) in the exponential
variant, both giving 2000 ms then 4000 ms here — and then escalates by
rethrowing the error of the last attempt. -/
theorem C3_retry_ceiling
    (o : Nat → HttpAttempt) (st : Nat → Option Nat) (m : Nat → String)
    (o' : Nat → Except FetchErr (List ClickUpPage)) (e : Nat → FetchErr)
    (ho : ∀ k, 1 ≤ k → k ≤ maxRetries →
      ClickupDocs.clickupApiGet (o k) = .rejected (st k) (m k) ∧ st k ≠ some 404)
    (ho' : ∀ k, 1 ≤ k → k ≤ maxRetries → o' k = .error (e k)) :
    ClickupDocs.getClickUpPagesWithRetry o
      = ⟨maxRetries, [ClickupDocs.backoffDelay 1, ClickupDocs.backoffDelay 2],
          .error (some ⟨st maxRetries, m maxRetries⟩)⟩
    ∧ Part001.getClickUpPagesWithRetry o'
      = ⟨maxRetries, [linearDelay 1, linearDelay 2], .error (some (e maxRetries))⟩
    ∧ [ClickupDocs.backoffDelay 1, ClickupDocs.backoffDelay 2] = [2000, 4000]
    ∧ [linearDelay 1, linearDelay 2] = [2000, 4000]
    ∧ List.Chain' (· < ·) [2000, 4000]
    ∧ (∀ a, ClickupDocs.backoffDelay a ≤ 10000) := by
  refine ⟨?_, ?_, by decide, by decide, ?_, ?_⟩
  · rw [clickupRetry_allFail o st m ho]
    norm_num [ClickupDocs.backoffDelay]
  · show linearRetryGo o' maxRetries 1 none = _
    rw [linearRetry_allFail o' e ho']
    norm_num [linearDelay]
  · simp [List.chain'_cons]
  · intro a
    exact Nat.min_le_left _ _

theorem C3_retry_ceiling_witness :
    (∀ k, 1 ≤ k → k ≤ maxRetries →
      ClickupDocs.clickupApiGet (HttpAttempt.network "Request timed out")
          = .rejected none "Request timed out"
        ∧ (none : Option Nat) ≠ some 404)
    ∧ ClickupDocs.getClickUpPagesWithRetry (fun _ => .network "Request timed out")
        = ⟨maxRetries, [ClickupDocs.backoffDelay 1, ClickupDocs.backoffDelay 2],
            .error (some ⟨none, "Request timed out"⟩)⟩
    ∧ Part001.getClickUpPagesWithRetry (fun _ => .error ⟨none, "Request timed out"⟩)
        = ⟨maxRetries, [linearDelay 1, linearDelay 2],
            .error (some ⟨none, "Request timed out"⟩)⟩ := by
  have hall := C3_retry_ceiling (fun _ => .network "Request timed out")
    (fun _ => none) (fun _ => "Request timed out")
    (fun _ => .error ⟨none, "Request timed out"⟩) (fun _ => ⟨none, "Request timed out"⟩)
    (fun k h1 h2 => ⟨rfl, by simp⟩) (fun k h1 h2 => rfl)
  exact ⟨fun k h1 h2 => ⟨rfl, by simp⟩, hall.1, hall.2.1⟩

/-- C10: with `validateStatus: (status) => status < 500`, any 4xx response —
404 and 429 included — resolves like a success: the fetch returns the parsed
body as the page list (`[]` when the body is falsy) after exactly one
attempt, so a 429 is never retried; rejected errors never carry a 4xx
status, so the catch/retry path — the explicit 404 skip branch included —
is reachable only for transport failures and 5xx responses. -/
theorem C10_validateStatus_behaviour (o : Nat → HttpAttempt) :
    (∀ s b, 400 ≤ s → s < 500 → o 1 = .response s b →
      ClickupDocs.getClickUpPagesWithRetry o = ⟨1, [], .ok (b.getD [])⟩)
    ∧ (∀ h st m, ClickupDocs.clickupApiGet h = .rejected st m →
        st ≠ some 404 ∧ ClickupDocs.transient h)
    ∧ (∀ err, (ClickupDocs.getClickUpPagesWithRetry o).result = Except.error err →
        ∀ k, 1 ≤ k → k ≤ maxRetries → ClickupDocs.transient (o k)) := by
  refine ⟨?_, ?_, ?_⟩
  · intro s b _ hs h1
    exact ClickupDocs.attempt1_resolves o s b hs h1
  · intro h st m hr
    exact ClickupDocs.rejected_transient h st m hr
  · intro err he
    exact ClickupDocs.error_all_transient o err he

theorem C10_validateStatus_behaviour_witness :
    (400 : Nat) ≤ 429 ∧ (429 : Nat) < 500
    ∧ ClickupDocs.getClickUpPagesWithRetry (fun _ => .response 429 (some []))
        = ⟨1, [], .ok []⟩ :=
  ⟨by decide, by decide,
    (C10_validateStatus_behaviour (fun _ => .response 429 (some []))).1 429 (some [])
      (by decide) (by decide) rfl⟩

/-- A fetch oracle answering every attempt with a 404 response whose parsed
body is a non-empty error payload (what axios yields when the ClickUp API
answers 404 with a JSON error object). -/
def o404 : Nat → HttpAttempt := fun _ => HttpAttempt.response 404 (some [pageA])

/-- C4 fails on the code: in the clickup variant `validateStatus` makes a
404 response resolve like a success, so the fetch returns the parsed
response body — here non-empty — rather than an empty sequence (the 404
skip branch in the catch is unreachable); and in part_000 a 404 rejection
is retried like any other failure rather than returning immediately. -/
theorem C4_counterexample :
    ClickupDocs.getClickUpPagesWithRetry o404 = ⟨1, [], .ok [pageA]⟩
    ∧ ¬ (ClickupDocs.getClickUpPagesWithRetry o404).result
        = Except.ok ([] : List ClickUpPage) := by
  have h1 : ClickupDocs.getClickUpPagesWithRetry o404 = ⟨1, [], .ok [pageA]⟩ := rfl
  refine ⟨h1, ?_⟩
  rw [h1]
  intro hc
  simp at hc

/-- C4 (amended): the two fetch variants handle "not found" differently.
In the clickup variant a 404 response resolves under
`validateStatus: status < 500` and the fetch immediately returns the parsed
body as the page list (`[]` only when the body is falsy) with no retry and
no error. In part_000 (default `validateStatus`) a 404 rejects and is
retried like any transient failure — 3 attempts, increasing delay — and
then throws; a subpage fetch that thus fails is recorded as an empty
`pages` sequence on its parent, so an unreachable subtree appears in the
built tree as empty children, never as an error value. -/
theorem C4_not_found_handling (o : Nat → HttpAttempt) (b : Option (List ClickUpPage))
    (oo : String → Nat → Except FetchErr (List ClickUpPage)) (docId : String)
    (p : ClickUpPage) (e : Nat → FetchErr) :
    (o 1 = .response 404 b →
      ClickupDocs.getClickUpPagesWithRetry o = ⟨1, [], .ok (b.getD [])⟩)
    ∧ ((∀ k, 1 ≤ k → k ≤ maxRetries → oo docId k = .error (e k)) →
        linearRetryGo (oo docId) maxRetries 1 none
          = ⟨maxRetries, [2000, 4000], .error (some (e maxRetries))⟩)
    ∧ (oo docId 1 = .ok [p] → p.pages.isEmpty = false →
        (∀ k, 1 ≤ k → k ≤ maxRetries → oo p.id k = .error (e k)) →
        Part000.getClickUpPagesWithRetry oo 2 docId = .ok [p.setPages []]) := by
  refine ⟨?_, ?_, ?_⟩
  · intro h1
    exact ClickupDocs.attempt1_resolves o 404 b (by decide) h1
  · intro ho
    exact linearRetry_allFail (oo docId) e ho
  · intro htop hne hsub
    have hsubfail := linearRetry_allFail (oo p.id) e hsub
    have htopok : linearRetryGo (oo docId) maxRetries 1 none = ⟨1, [], .ok [p]⟩ := by
      show linearRetryGo (oo docId) 3 1 none = _
      simp [linearRetryGo, htop]
    show Part000.getClickUpPagesWithRetry oo (1 + 1) docId = _
    simp [Part000.getClickUpPagesWithRetry, htopok, hsubfail, hne]

/-- A page with a non-empty child stub, used to exercise the subpage
re-fetch of part_000. -/
def pageC : ClickUpPage := mkPage "c" "Gamma" "body c" false [pageA]

/-- Root fetch succeeds with `[pageC]`; every other document id (in
particular `pageC.id = "c"`) rejects with a 404 error on every attempt. -/
def ooW : String → Nat → Except FetchErr (List ClickUpPage) :=
  fun d _ => if d = "root" then .ok [pageC] else .error ⟨some 404, "not found"⟩

theorem C4_not_found_handling_witness :
    ooW "root" 1 = .ok [pageC]
    ∧ pageC.pages.isEmpty = false
    ∧ (∀ k, 1 ≤ k → k ≤ maxRetries → ooW pageC.id k = .error ⟨some 404, "not found"⟩)
    ∧ Part000.getClickUpPagesWithRetry ooW 2 "root" = .ok [pageC.setPages []]
    ∧ ClickupDocs.getClickUpPagesWithRetry (fun _ => .response 404 none) = ⟨1, [], .ok []⟩ := by
  refine ⟨rfl, rfl, fun k h1 h2 => rfl, ?_, ?_⟩
  · exact (C4_not_found_handling (fun _ => .response 404 none) none ooW "root" pageC
      (fun _ => ⟨some 404, "not found"⟩)).2.2 rfl rfl (fun k h1 h2 => rfl)
  · exact (C4_not_found_handling (fun _ => .response 404 none) none ooW "root" pageC
      (fun _ => ⟨some 404, "not found"⟩)).1 rfl

/-- Observable outcome of one orchestration pass of part_002's `main`:
which roots were processed, which were skipped by the per-root `catch`, and
the accumulated `totalUpsertedDocs`. -/
structure Part002Run : Type where
  processedRoots : List String
  skippedRoots : List String
  totalUpsertedDocs : Nat
  deriving DecidableEq

/-- The per-root loop of `main` in `src/unnamed/part_002` (lines 203-215):
each iteration has its own `try catch` whose handler logs and `continue`s,
so a failing root is skipped and the loop proceeds; a successful root adds
its `processPages` count to the total. `fetch` is the outcome of
`getClickUpPages` per root (part_002 performs a single attempt, no retry);
`failMsg` the destination-write oracle. -/
def Part002.mainLoop (fetch : String → Except FetchErr (List ClickUpPage))
    (failMsg : ClickUpPage → Option String) : List String → Part002Run
  | [] => ⟨[], [], 0⟩
  | d :: ds =>
    let r := Part002.mainLoop fetch failMsg ds
    match fetch d with
    | .ok pages =>
      ⟨d :: r.processedRoots, r.skippedRoots,
        (Part002.processPages failMsg pages).1 + r.totalUpsertedDocs⟩
    | .error _ => ⟨r.processedRoots, d :: r.skippedRoots, r.totalUpsertedDocs⟩

/-- Function `main` in `src/unnamed/part_002` (lines 197-220): `getAllDocs` is inside
the outer `try`, so a failure there yields an empty run (caught and logged,
nothing processed); otherwise the per-root loop runs. -/
def Part002.main (docsResult : Except FetchErr (List String))
    (fetch : String → Except FetchErr (List ClickUpPage))
    (failMsg : ClickUpPage → Option String) : Part002Run :=
  match docsResult with
  | .error _ => ⟨[], [], 0⟩
  | .ok docIds => Part002.mainLoop fetch failMsg docIds

/-- The root loop of `main` in `src/clickup/clickup-docs-to-dust.ts` (lines
246-250): there is no per-root `try catch` — the whole loop sits in one
`try` — so the first root whose fetch throws aborts the loop (the error is
caught and logged at the top level, nothing after it runs). Returns the
roots that were actually processed. -/
def ClickupDocs.mainProcessed (fetch : String → Except FetchErr (List ClickUpPage)) :
    List String → List String
  | [] => []
  | d :: ds =>
    match fetch d with
    | .ok _ => d :: ClickupDocs.mainProcessed fetch ds
    | .error _ => []

/-- Did a fetch resolve? (`Except.isOk`, spelled out so it unfolds
uniformly in proofs.) -/
def fetchOk {e a : Type} : Except e a → Bool
  | .ok _ => true
  | .error _ => false

/-- Root 1 times out after all retries; root 2 fetches fine. -/
def exFetch : String → Except FetchErr (List ClickUpPage) :=
  fun d => if d = "r1" then .error ⟨none, "Request timed out"⟩ else .ok [pageA]

/-- C5 fails on the code: in the multi-root clickup variant a whole-root
fetch failure aborts the root loop — here root `r1` fails and root `r2` is
never processed, although its own fetch would succeed. (The error is still
caught at the top level, so no exception escapes `main`.) -/
theorem C5_counterexample :
    ClickupDocs.mainProcessed exFetch ["r1", "r2"] = []
    ∧ fetchOk (exFetch "r2") = true
    ∧ ¬ "r2" ∈ ClickupDocs.mainProcessed exFetch ["r1", "r2"] := by
  refine ⟨rfl, rfl, ?_⟩
  rw [show ClickupDocs.mainProcessed exFetch ["r1", "r2"] = [] from rfl]
  simp

/-- C5 (amended): only part_002's `main` isolates whole-root failures: a
root whose fetch throws is caught, logged and skipped, every other root is
still processed (processed roots are exactly those whose fetch succeeds,
skipped roots exactly those whose fetch throws, in order), and the total is
the sum of the per-root counts of the successful roots; the clickup
variant's `main` instead aborts the remaining roots on the first failure
(see the counterexample), though it too lets no exception escape. -/
theorem C5_root_isolation (docIds : List String)
    (fetch : String → Except FetchErr (List ClickUpPage))
    (failMsg : ClickUpPage → Option String) :
    ((Part002.main (.ok docIds) fetch failMsg).processedRoots
        = docIds.filter (fun d => fetchOk (fetch d)))
    ∧ ((Part002.main (.ok docIds) fetch failMsg).skippedRoots
        = docIds.filter (fun d => ¬ fetchOk (fetch d)))
    ∧ ((Part002.main (.ok docIds) fetch failMsg).totalUpsertedDocs
        = (docIds.map (fun d =>
            match fetch d with
            | .ok pages => (Part002.processPages failMsg pages).1
            | .error _ => 0)).sum)
    ∧ (∀ d, d ∈ docIds → fetchOk (fetch d) → ∀ d2, d2 ∈ docIds → ¬ fetchOk (fetch d2) →
        d ∈ (Part002.main (.ok docIds) fetch failMsg).processedRoots
        ∧ ¬ d2 ∈ (Part002.main (.ok docIds) fetch failMsg).processedRoots
        ∧ d2 ∈ (Part002.main (.ok docIds) fetch failMsg).skippedRoots) := by
  have hmain : ∀ ds : List String,
      (Part002.mainLoop fetch failMsg ds).processedRoots
          = ds.filter (fun d => fetchOk (fetch d))
      ∧ (Part002.mainLoop fetch failMsg ds).skippedRoots
          = ds.filter (fun d => ¬ fetchOk (fetch d))
      ∧ (Part002.mainLoop fetch failMsg ds).totalUpsertedDocs
          = (ds.map (fun d =>
              match fetch d with
              | .ok pages => (Part002.processPages failMsg pages).1
              | .error _ => 0)).sum := by
    intro ds
    induction ds with
    | nil => exact ⟨rfl, rfl, rfl⟩
    | cons d ds ih =>
      rw [Part002.mainLoop]
      cases hf : fetch d with
      | ok pages =>
        refine ⟨?_, ?_, ?_⟩ <;>
          simp [List.filter_cons, hf, fetchOk, ih.1, ih.2.1, ih.2.2]
      | error err =>
        refine ⟨?_, ?_, ?_⟩ <;>
          simp [List.filter_cons, hf, fetchOk, ih.1, ih.2.1, ih.2.2]
  refine ⟨(hmain docIds).1, (hmain docIds).2.1, (hmain docIds).2.2, ?_⟩
  intro d hd hok d2 hd2 hbad
  simp only [Part002.main]
  refine ⟨?_, ?_, ?_⟩
  · rw [(hmain docIds).1]
    exact List.mem_filter.mpr ⟨hd, hok⟩
  · rw [(hmain docIds).1]
    intro hc
    exact hbad (List.mem_filter.mp hc).2
  · rw [(hmain docIds).2.1]
    refine List.mem_filter.mpr ⟨hd2, ?_⟩
    simpa using hbad

theorem C5_root_isolation_witness :
    "r2" ∈ ["r1", "r2"] ∧ fetchOk (exFetch "r2") = true
    ∧ "r1" ∈ ["r1", "r2"] ∧ ¬ fetchOk (exFetch "r1") = true
    ∧ "r2" ∈ (Part002.main (.ok ["r1", "r2"]) exFetch (fun _ => none)).processedRoots
    ∧ ¬ "r1" ∈ (Part002.main (.ok ["r1", "r2"]) exFetch (fun _ => none)).processedRoots
    ∧ "r1" ∈ (Part002.main (.ok ["r1", "r2"]) exFetch (fun _ => none)).skippedRoots := by
  have h2 : "r2" ∈ ["r1", "r2"] := by simp
  have h1 : "r1" ∈ ["r1", "r2"] := by simp
  have hok : fetchOk (exFetch "r2") = true := rfl
  have hbad : ¬ fetchOk (exFetch "r1") = true := by
    intro hc
    simp [exFetch, fetchOk] at hc
  have happ := (C5_root_isolation ["r1", "r2"] exFetch (fun _ => none)).2.2.2
    "r2" h2 hok "r1" h1 hbad
  exact ⟨h2, hok, h1, hbad, happ.1, happ.2.1, happ.2.2⟩

/-- An event on the destination lane: one write request (keyed by its
documentId, tagged with whether the write succeeded) or the fixed
inter-batch pause (`setTimeout(resolve, 1000)`). -/
inductive DustEvent : Type where
  | write (documentId : String) (ok : Bool)
  | pause
  deriving DecidableEq

/-- Function `upsertToDustDatasource` from `src/unnamed/part_000` (lines 160-186):
builds the envelope, issues exactly one `limitedDustApiPost` keyed by
`documentId` — there is no retry loop at this layer — and catches any error,
logging it against that documentId only. Returns the list of issued request
keys and the observable event. -/
def Part000.upsertToDustDatasource (fails : ClickUpPage → Bool) (p : ClickUpPage) :
    List String × DustEvent :=
  ([documentId p], .write (documentId p) (!fails p))

def Part000.upsertEvent (fails : ClickUpPage → Bool) (p : ClickUpPage) : DustEvent :=
  (Part000.upsertToDustDatasource fails p).2

/-- The key (documentId) of an event, `none` for a pause. -/
def eventKey : DustEvent → Option String
  | .write d _ => some d
  | .pause => none

/-- Slicing a list into consecutive batches of `n` (`allPages.slice(i, i +
batchSize)` for `i = 0, n, 2n, ...`); `fuel` bounds the iteration count (the
source loop needs `n ≥ 1` to terminate, and `fuel ≥ l.length` suffices). -/
def chunkAux {α : Type} (n : Nat) : Nat → List α → List (List α)
  | 0, _ => []
  | _ + 1, [] => []
  | fuel + 1, a :: l => (a :: l).take n :: chunkAux n fuel ((a :: l).drop n)

def chunk {α : Type} (n : Nat) (l : List α) : List (List α) :=
  chunkAux n l.length l

/-- The batch loop of `processPages` in `src/unnamed/part_000` (lines
205-217): take the next `batchSize` pages, `await Promise.all` of their
upserts (all writes of the batch are attempted before the loop continues),
then — only `if (i + batchSize < allPages.length)` — pause before the next
batch. -/
def Part000.batchGo (fails : ClickUpPage → Bool) (n : Nat) :
    Nat → List ClickUpPage → List DustEvent
  | 0, _ => []
  | _ + 1, [] => []
  | fuel + 1, a :: l =>
    ((a :: l).take n).map (Part000.upsertEvent fails) ++
    (if n < (a :: l).length then
      DustEvent.pause :: Part000.batchGo fails n fuel ((a :: l).drop n)
    else [])

/-- Function `processPages(pages, batchSize = 5)` of `src/unnamed/part_000`: flatten,
then deliver in batches. -/
def Part000.processPages (fails : ClickUpPage → Bool) (batchSize : Nat)
    (pages : List ClickUpPage) : List DustEvent :=
  Part000.batchGo fails batchSize (flattenPages pages).length (flattenPages pages)

/-- The call with the default batch size 5. -/
def Part000.processPagesDefault (fails : ClickUpPage → Bool)
    (pages : List ClickUpPage) : List DustEvent :=
  Part000.processPages fails 5 pages

/-- Batch blocks separated by single pauses, with no trailing pause. -/
def joinPause : List (List DustEvent) → List DustEvent
  | [] => []
  | [c] => c
  | c :: c2 :: cs => c ++ DustEvent.pause :: joinPause (c2 :: cs)

theorem joinPause_cons (c : List DustEvent) (cs : List (List DustEvent)) :
    joinPause (c :: cs)
      = c ++ (if cs.isEmpty then [] else DustEvent.pause :: joinPause cs) := by
  cases cs with
  | nil => simp [joinPause]
  | cons c2 cs' => simp [joinPause, List.isEmpty]

theorem chunkAux_nil {α : Type} (n fuel : Nat) : chunkAux n fuel ([] : List α) = [] := by
  cases fuel <;> rfl

theorem chunkAux_eq_nil_iff {α : Type} (n fuel : Nat) (l : List α) (hf : l.length ≤ fuel) :
    chunkAux n fuel l = [] ↔ l = [] := by
  cases fuel with
  | zero =>
    cases l with
    | nil => simp [chunkAux]
    | cons a l' => simp at hf
  | succ f =>
    cases l with
    | nil => simp [chunkAux]
    | cons a l' => simp [chunkAux]

theorem chunkAux_join {α : Type} (n : Nat) (h1 : 1 ≤ n) :
    ∀ fuel (l : List α), l.length ≤ fuel → (chunkAux n fuel l).flatten = l := by
  intro fuel
  induction fuel with
  | zero =>
    intro l hf
    have hl : l = [] := by
      cases l with
      | nil => rfl
      | cons a l' => simp at hf
    subst hl
    rfl
  | succ f ih =>
    intro l hf
    cases l with
    | nil => rfl
    | cons a l' =>
      rw [chunkAux]
      simp only [List.flatten_cons]
      rw [ih ((a :: l').drop n) (by simp only [List.length_drop, List.length_cons] at hf ⊢; omega)]
      exact List.take_append_drop n (a :: l')

theorem chunkAux_mem {α : Type} (n : Nat) (h1 : 1 ≤ n) :
    ∀ fuel (l : List α), l.length ≤ fuel →
      ∀ c ∈ chunkAux n fuel l, c ≠ [] ∧ c.length ≤ n := by
  intro fuel
  induction fuel with
  | zero =>
    intro l hf c hc
    have hl : l = [] := by
      cases l with
      | nil => rfl
      | cons a l' => simp at hf
    subst hl
    simp [chunkAux] at hc
  | succ f ih =>
    intro l hf c hc
    cases l with
    | nil => simp [chunkAux] at hc
    | cons a l' =>
      rw [chunkAux] at hc
      rcases List.mem_cons.mp hc with rfl | hc'
      · constructor
        · cases n with
          | zero => omega
          | succ m => simp [List.take_cons]
        · simp [List.length_take]
      · exact ih ((a :: l').drop n) (by simp only [List.length_drop, List.length_cons] at hf ⊢; omega) c hc'

theorem chunkAux_dropLast {α : Type} (n : Nat) (h1 : 1 ≤ n) :
    ∀ fuel (l : List α), l.length ≤ fuel →
      ∀ c ∈ (chunkAux n fuel l).dropLast, c.length = n := by
  intro fuel
  induction fuel with
  | zero =>
    intro l hf c hc
    have hl : l = [] := by
      cases l with
      | nil => rfl
      | cons a l' => simp at hf
    subst hl
    simp [chunkAux] at hc
  | succ f ih =>
    intro l hf c hc
    cases l with
    | nil => simp [chunkAux] at hc
    | cons a l' =>
      rw [chunkAux] at hc
      rcases hrest : chunkAux n f ((a :: l').drop n) with _ | ⟨y, cs'⟩
      · rw [hrest] at hc
        simp at hc
      · rw [hrest] at hc
        rw [List.dropLast_cons₂] at hc
        rcases List.mem_cons.mp hc with rfl | hc'
        · have hne : (a :: l').drop n ≠ [] := by
            intro hd
            rw [hd, chunkAux_nil] at hrest
            exact List.noConfusion hrest
          have hlt : n < (a :: l').length := by
            by_contra hle
            exact hne (List.drop_eq_nil_of_le (by omega))
          simp only [List.length_take, List.length_cons] at hlt ⊢
          omega
        · have := ih ((a :: l').drop n) (by simp only [List.length_drop, List.length_cons] at hf ⊢; omega) c
          rw [hrest] at this
          exact this hc'

theorem batchGo_eq_joinPause (fails : ClickUpPage → Bool) (n : Nat) (h1 : 1 ≤ n) :
    ∀ fuel (l : List ClickUpPage), l.length ≤ fuel →
      Part000.batchGo fails n fuel l
        = joinPause ((chunkAux n fuel l).map (List.map (Part000.upsertEvent fails))) := by
  intro fuel
  induction fuel with
  | zero =>
    intro l hf
    have hl : l = [] := by
      cases l with
      | nil => rfl
      | cons a l' => simp at hf
    subst hl
    rfl
  | succ f ih =>
    intro l hf
    cases l with
    | nil => rfl
    | cons a l' =>
      rw [Part000.batchGo, chunkAux, List.map_cons, joinPause_cons]
      have hdrop : ((a :: l').drop n).length ≤ f := by
        simp only [List.length_drop, List.length_cons] at hf ⊢
        omega
      by_cases hlt : n < (a :: l').length
      · rw [if_pos hlt]
        have hne : (a :: l').drop n ≠ [] := by
          intro hd
          rw [List.drop_eq_nil_iff] at hd
          omega
        have hcne : ¬ ((chunkAux n f ((a :: l').drop n)).map
            (List.map (Part000.upsertEvent fails))).isEmpty = true := by
          rw [List.isEmpty_iff, List.map_eq_nil_iff,
            chunkAux_eq_nil_iff n f _ hdrop]
          exact hne
        rw [if_neg hcne]
        rw [ih ((a :: l').drop n) hdrop]
      · rw [if_neg hlt]
        have hd : (a :: l').drop n = [] := List.drop_eq_nil_of_le (by omega)
        rw [hd, chunkAux_nil]
        simp

/-- C7: the flattened candidate list is delivered in fixed-size batches of 5
(the default batch size): the event trace is exactly the batch blocks
separated by single pauses — so every write of batch N is attempted before
any write of batch N+1, and a pause occurs only between two consecutive
batches (never after the last); every batch is non-empty with at most 5
candidates, every batch but the last has exactly 5, and the batches
partition the flattened list in order. -/
theorem C7_batching (fails : ClickUpPage → Bool) (pages : List ClickUpPage) :
    Part000.processPagesDefault fails pages
      = joinPause ((chunk 5 (flattenPages pages)).map (List.map (Part000.upsertEvent fails)))
    ∧ (∀ c ∈ chunk 5 (flattenPages pages), c ≠ [] ∧ c.length ≤ 5)
    ∧ (∀ c ∈ (chunk 5 (flattenPages pages)).dropLast, c.length = 5)
    ∧ (chunk 5 (flattenPages pages)).flatten = flattenPages pages := by
  refine ⟨?_, ?_, ?_, ?_⟩
  · exact batchGo_eq_joinPause fails 5 (by omega) (flattenPages pages).length
      (flattenPages pages) le_rfl
  · exact chunkAux_mem 5 (by omega) (flattenPages pages).length (flattenPages pages) le_rfl
  · exact chunkAux_dropLast 5 (by omega) (flattenPages pages).length (flattenPages pages) le_rfl
  · exact chunkAux_join 5 (by omega) (flattenPages pages).length (flattenPages pages) le_rfl

def pg1 : ClickUpPage := mkPage "1" "P1" "b1" false []

def pg2 : ClickUpPage := mkPage "2" "P2" "b2" false []

def pg3 : ClickUpPage := mkPage "3" "P3" "b3" false []

def pg4 : ClickUpPage := mkPage "4" "P4" "b4" false []

def pg5 : ClickUpPage := mkPage "5" "P5" "b5" false []

def pg6 : ClickUpPage := mkPage "6" "P6" "b6" false []

/-- Six syncable leaves: two batches (5 + 1) under the default batch size. -/
def exPages6 : List ClickUpPage := [pg1, pg2, pg3, pg4, pg5, pg6]

/-- A forest of syncable leaves flattens to itself. -/
theorem flattenPages_of_leaves (l : List ClickUpPage)
    (h : ∀ p ∈ l, p.syncable ∧ p.pages.isEmpty = true) : flattenPages l = l := by
  induction l with
  | nil => exact flattenPages_nil
  | cons p ps ih =>
    have hp := h p (List.mem_cons_self p ps)
    have hpp : p.pages = [] := by
      cases hpg : p.pages with
      | nil => rfl
      | cons a as =>
        rw [hpg] at hp
        simp [List.isEmpty] at hp
    rw [flattenPages_cons, if_pos hp.1, hpp, flattenPages_nil,
      ih (fun q hq => h q (List.mem_cons_of_mem p hq))]
    simp

theorem C7_batching_witness :
    flattenPages exPages6 = exPages6
    ∧ [pg1, pg2, pg3, pg4, pg5] ∈ chunk 5 (flattenPages exPages6)
    ∧ [pg1, pg2, pg3, pg4, pg5] ≠ ([] : List ClickUpPage)
    ∧ ([pg1, pg2, pg3, pg4, pg5] : List ClickUpPage).length ≤ 5
    ∧ Part000.processPagesDefault (fun _ => false) exPages6
        = joinPause ((chunk 5 (flattenPages exPages6)).map
            (List.map (Part000.upsertEvent (fun _ => false)))) := by
  have hflat : flattenPages exPages6 = exPages6 :=
    flattenPages_of_leaves exPages6 (by decide)
  have hmem : [pg1, pg2, pg3, pg4, pg5] ∈ chunk 5 (flattenPages exPages6) := by
    rw [hflat]
    rw [show chunk 5 exPages6 = [[pg1, pg2, pg3, pg4, pg5], [pg6]] from rfl]
    exact List.mem_cons_self _ _
  have hc := (C7_batching (fun _ => false) exPages6).2.1 [pg1, pg2, pg3, pg4, pg5] hmem
  exact ⟨hflat, hmem, hc.1, hc.2, (C7_batching (fun _ => false) exPages6).1⟩

/-- The shape (write keys and pauses, ignoring success flags) of the batch
trace does not depend on which writes fail: a failing upsert neither cancels
nor delays any sibling or later write. -/
theorem batchGo_key_indep (fails fails' : ClickUpPage → Bool) (n : Nat) :
    ∀ fuel (l : List ClickUpPage),
      (Part000.batchGo fails n fuel l).map eventKey
        = (Part000.batchGo fails' n fuel l).map eventKey := by
  intro fuel
  induction fuel with
  | zero =>
    intro l
    rfl
  | succ f ih =>
    intro l
    cases l with
    | nil => rfl
    | cons a l' =>
      rw [Part000.batchGo, Part000.batchGo]
      rw [List.map_append, List.map_append, List.map_map, List.map_map]
      have hhead : eventKey ∘ Part000.upsertEvent fails
          = eventKey ∘ Part000.upsertEvent fails' := by
        funext p
        rfl
      rw [hhead]
      by_cases hlt : n < (a :: l').length
      · rw [if_pos hlt, if_pos hlt]
        rw [List.map_cons, List.map_cons, ih ((a :: l').drop n)]
      · rw [if_neg hlt, if_neg hlt]

/-- Each candidate gets exactly one write in the whole run: the write keys
of the trace are the documentIds of the flattened candidates, in order. -/
theorem batchGo_writes (fails : ClickUpPage → Bool) (n : Nat) (h1 : 1 ≤ n) :
    ∀ fuel (l : List ClickUpPage), l.length ≤ fuel →
      (Part000.batchGo fails n fuel l).filterMap eventKey = l.map documentId := by
  intro fuel
  induction fuel with
  | zero =>
    intro l hf
    have hl : l = [] := by
      cases l with
      | nil => rfl
      | cons a l' => simp at hf
    subst hl
    rfl
  | succ f ih =>
    intro l hf
    cases l with
    | nil => rfl
    | cons a l' =>
      rw [Part000.batchGo]
      rw [List.filterMap_append]
      have hhead : (((a :: l').take n).map (Part000.upsertEvent fails)).filterMap eventKey
          = ((a :: l').take n).map documentId := by
        rw [List.filterMap_map]
        have : eventKey ∘ Part000.upsertEvent fails = some ∘ documentId := by
          funext p
          rfl
        rw [this, List.filterMap_eq_map]
      rw [hhead]
      by_cases hlt : n < (a :: l').length
      · rw [if_pos hlt]
        rw [show (DustEvent.pause :: Part000.batchGo fails n f ((a :: l').drop n)).filterMap
              eventKey
            = (Part000.batchGo fails n f ((a :: l').drop n)).filterMap eventKey from rfl]
        rw [ih ((a :: l').drop n) (by simp only [List.length_drop, List.length_cons] at hf ⊢; omega)]
        rw [← List.map_append, List.take_append_drop]
      · rw [if_neg hlt]
        have htake : (a :: l').take n = a :: l' :=
          List.take_of_length_le (by omega)
        rw [htake]
        simp

/-- C8: one invocation of the upsert issues exactly one write request to the
destination, keyed by the candidate's documentId — no retry at this layer —
and its failure is recorded against that documentId alone; the positions and
keys of all writes and pauses in the run are the same whatever subset of
writes fails (no cancellation, no delay of siblings or later batches), and
every flattened candidate receives exactly one write per run. -/
theorem C8_upsert_isolation (fails fails' : ClickUpPage → Bool) (p : ClickUpPage)
    (pages : List ClickUpPage) :
    Part000.upsertToDustDatasource fails p
      = ([documentId p], DustEvent.write (documentId p) (!fails p))
    ∧ (Part000.upsertToDustDatasource fails p).1.length = 1
    ∧ (Part000.processPagesDefault fails pages).map eventKey
        = (Part000.processPagesDefault fails' pages).map eventKey
    ∧ (Part000.processPagesDefault fails pages).filterMap eventKey
        = (flattenPages pages).map documentId := by
  refine ⟨rfl, rfl, ?_, ?_⟩
  · exact batchGo_key_indep fails fails' 5 (flattenPages pages).length (flattenPages pages)
  · exact batchGo_writes fails 5 (by omega) (flattenPages pages).length
      (flattenPages pages) le_rfl

/-- The Bottleneck options each variant passes when constructing a limiter
(`minTime` in milliseconds, `maxConcurrent`). The reservoir options of the
clickup variant only remove further grants and are not modelled. -/
structure BottleneckConfig : Type where
  minTime : Nat
  maxConcurrent : Nat
  deriving DecidableEq

/-- Options of `clickupLimiter` in `src/clickup/clickup-docs-to-dust.ts` (lines 53-59):
`minTime: 2000, maxConcurrent: 1`. -/
def ClickupDocs.clickupLimiter : BottleneckConfig := ⟨2000, 1⟩

/-- Options of `dustLimiter` in `src/clickup/clickup-docs-to-dust.ts` (lines 119-125):
`minTime: 1000, maxConcurrent: 1`. -/
def ClickupDocs.dustLimiter : BottleneckConfig := ⟨1000, 1⟩

/-- Options of `clickupLimiter` in `src/unnamed/part_000` (lines 46-49) and of
`part_001` (lines 49-52): `minTime: 1000, maxConcurrent: 1`. -/
def Part000.clickupLimiter : BottleneckConfig := ⟨1000, 1⟩

/-- Options of `dustLimiter` in `src/unnamed/part_000` (lines 110-113) and of
`part_001` (lines 103-106): `minTime: 500, maxConcurrent: 1`. -/
def Part000.dustLimiter : BottleneckConfig := ⟨500, 1⟩

/-- Options of `clickupLimiter` in `src/unnamed/part_002` (lines 36-39):
`minTime: 3000, maxConcurrent: 1`. -/
def Part002.clickupLimiter : BottleneckConfig := ⟨3000, 1⟩

/-- Options of `dustLimiter` in `src/unnamed/part_002` (lines 72-75):
`minTime: 3000, maxConcurrent: 1`. -/
def Part002.dustLimiter : BottleneckConfig := ⟨3000, 1⟩

/-- Modelled from the spec: the internal state of one Bottleneck limiter
lane (the library is an external npm dependency; §3 ThrottleState / §4.1
Throttle): the number of in-flight permits and the time of the last grant. -/
structure LimiterState : Type where
  inFlight : Nat
  lastGrant : Option Nat
  deriving DecidableEq

/-- A timed event on one lane: a permit grant (the wrapped call starts) or a
settle (the wrapped call completes, its permit released). -/
inductive LimiterEvent : Type where
  | grant (t : Nat)
  | settle (t : Nat)
  deriving DecidableEq

/-- May a grant happen at time `t`? Only `minTime` or more after the
previous grant. -/
def spacingOk (last : Option Nat) (minTime t : Nat) : Bool :=
  match last with
  | none => true
  | some g => g + minTime ≤ t

/-- Modelled from the spec: one step of a Bottleneck lane (§4.1 Throttle —
`acquire` suspends the caller until both the concurrency cap and the
minimum spacing allow the grant, so an accepted trace never grants outside
those bounds; `release` just returns the permit). `none` means the event
cannot happen in this state — the library would keep the caller queued
instead. -/
def limiterStep (cfg : BottleneckConfig) (s : LimiterState) :
    LimiterEvent → Option LimiterState
  | .grant t =>
    if s.inFlight < cfg.maxConcurrent ∧ spacingOk s.lastGrant cfg.minTime t = true then
      some ⟨s.inFlight + 1, some t⟩
    else none
  | .settle _ => some ⟨s.inFlight - 1, s.lastGrant⟩

/-- Run a lane over a timed event trace; `none` when some event violates
the lane's constraints. -/
def limiterRun (cfg : BottleneckConfig) : LimiterState → List LimiterEvent → Option LimiterState
  | s, [] => some s
  | s, e :: es =>
    match limiterStep cfg s e with
    | none => none
    | some s' => limiterRun cfg s' es

/-- The grant times of a trace, in order. -/
def grantTimes : List LimiterEvent → List Nat
  | [] => []
  | .grant t :: es => t :: grantTimes es
  | .settle _ :: es => grantTimes es

theorem limiterRun_inFlight (cfg : BottleneckConfig) :
    ∀ (evs : List LimiterEvent) (s s' : LimiterState),
      limiterRun cfg s evs = some s' → s.inFlight ≤ cfg.maxConcurrent →
      s'.inFlight ≤ cfg.maxConcurrent := by
  intro evs
  induction evs with
  | nil =>
    intro s s' h hs
    rw [limiterRun] at h
    cases h
    exact hs
  | cons e es ih =>
    intro s s' h hs
    rw [limiterRun] at h
    cases e with
    | grant t =>
      rw [limiterStep] at h
      by_cases hg : s.inFlight < cfg.maxConcurrent ∧ spacingOk s.lastGrant cfg.minTime t = true
      · rw [if_pos hg] at h
        exact ih _ _ h (by simp; omega)
      · rw [if_neg hg] at h
        exact absurd h (by simp)
    | settle t =>
      rw [limiterStep] at h
      exact ih _ _ h (by simp; omega)

theorem limiterRun_spacing (cfg : BottleneckConfig) :
    ∀ (evs : List LimiterEvent) (s s' : LimiterState),
      limiterRun cfg s evs = some s' →
      List.Chain' (fun a b => a + cfg.minTime ≤ b)
        (s.lastGrant.toList ++ grantTimes evs) := by
  intro evs
  induction evs with
  | nil =>
    intro s s' h
    cases hl : s.lastGrant with
    | none => simp [grantTimes]
    | some g => simp [grantTimes]
  | cons e es ih =>
    intro s s' h
    rw [limiterRun] at h
    cases e with
    | grant t =>
      rw [limiterStep] at h
      by_cases hg : s.inFlight < cfg.maxConcurrent ∧ spacingOk s.lastGrant cfg.minTime t = true
      · rw [if_pos hg] at h
        have htail := ih _ _ h
        simp only [LimiterState.lastGrant, Option.toList] at htail
        cases hl : s.lastGrant with
        | none =>
          simp only [hl, Option.toList, List.nil_append, grantTimes]
          exact htail
        | some g =>
          simp only [hl, Option.toList, grantTimes]
          rw [List.singleton_append, List.chain'_cons]
          refine ⟨?_, htail⟩
          have hsp := hg.2
          rw [hl] at hsp
          simpa [spacingOk] using hsp
      · rw [if_neg hg] at h
        exact absurd h (by simp)
    | settle t =>
      rw [limiterStep] at h
      have htail := ih _ _ h
      simp only [LimiterState.lastGrant] at htail
      rw [grantTimes]
      exact htail

theorem limiterRun_append (cfg : BottleneckConfig) :
    ∀ (pre suf : List LimiterEvent) (s s' : LimiterState),
      limiterRun cfg s (pre ++ suf) = some s' →
      ∃ smid, limiterRun cfg s pre = some smid ∧ limiterRun cfg smid suf = some s' := by
  intro pre
  induction pre with
  | nil =>
    intro suf s s' h
    exact ⟨s, rfl, h⟩
  | cons e pre' ih =>
    intro suf s s' h
    rw [List.cons_append, limiterRun] at h
    cases hstep : limiterStep cfg s e with
    | none =>
      rw [hstep] at h
      exact absurd h (by simp)
    | some s1 =>
      rw [hstep] at h
      obtain ⟨smid, h1, h2⟩ := ih suf s1 s' h
      refine ⟨smid, ?_, h2⟩
      rw [limiterRun, hstep]
      exact h1

/-- C9: for each of the limiter lanes configured in the sources (modelled
from the spec, Bottleneck being an external library), an accepted event
trace keeps the in-flight permits at or below `maxConcurrent` at every
point — every prefix of the trace is itself accepted and ends at or below
the cap — and consecutive grants are at least `minTime` apart. -/
theorem C9_throttle_bound (cfg : BottleneckConfig) (evs : List LimiterEvent)
    (s' : LimiterState)
    (hcfg : cfg ∈ [ClickupDocs.clickupLimiter, ClickupDocs.dustLimiter,
      Part000.clickupLimiter, Part000.dustLimiter,
      Part002.clickupLimiter, Part002.dustLimiter])
    (h : limiterRun cfg ⟨0, none⟩ evs = some s') :
    s'.inFlight ≤ cfg.maxConcurrent
    ∧ List.Chain' (fun a b => a + cfg.minTime ≤ b) (grantTimes evs)
    ∧ (∀ pre suf, evs = pre ++ suf →
        ∃ smid, limiterRun cfg ⟨0, none⟩ pre = some smid
          ∧ smid.inFlight ≤ cfg.maxConcurrent) := by
  refine ⟨?_, ?_, ?_⟩
  · exact limiterRun_inFlight cfg evs ⟨0, none⟩ s' h (by simp)
  · have := limiterRun_spacing cfg evs ⟨0, none⟩ s' h
    simpa using this
  · intro pre suf hsplit
    rw [hsplit] at h
    obtain ⟨smid, h1, h2⟩ := limiterRun_append cfg pre suf ⟨0, none⟩ s' h
    exact ⟨smid, h1, limiterRun_inFlight cfg pre ⟨0, none⟩ smid h1 (by simp)⟩

theorem C9_throttle_bound_witness :
    Part000.clickupLimiter
        ∈ [ClickupDocs.clickupLimiter, ClickupDocs.dustLimiter,
            Part000.clickupLimiter, Part000.dustLimiter,
            Part002.clickupLimiter, Part002.dustLimiter]
    ∧ limiterRun Part000.clickupLimiter ⟨0, none⟩
        [.grant 0, .settle 200, .grant 1000, .settle 1300]
        = some ⟨0, some 1000⟩
    ∧ (⟨0, some 1000⟩ : LimiterState).inFlight ≤ Part000.clickupLimiter.maxConcurrent
    ∧ List.Chain' (fun a b => a + Part000.clickupLimiter.minTime ≤ b)
        (grantTimes [.grant 0, .settle 200, .grant 1000, .settle 1300]) := by
  have hcfg : Part000.clickupLimiter
      ∈ [ClickupDocs.clickupLimiter, ClickupDocs.dustLimiter,
          Part000.clickupLimiter, Part000.dustLimiter,
          Part002.clickupLimiter, Part002.dustLimiter] := by
    simp [Part000.clickupLimiter, ClickupDocs.clickupLimiter]
  have hrun : limiterRun Part000.clickupLimiter ⟨0, none⟩
      [.grant 0, .settle 200, .grant 1000, .settle 1300] = some ⟨0, some 1000⟩ := by
    decide
  have happ := C9_throttle_bound Part000.clickupLimiter
    [.grant 0, .settle 200, .grant 1000, .settle 1300] ⟨0, some 1000⟩ hcfg hrun
  exact ⟨hcfg, hrun, happ.1, happ.2.1⟩

end DustDataSync
